import Mathlib

/-!
Verification development for the network-flood-model repository.

The repository contains two near-duplicate notebooks implementing flood
routing on a drainage network:
 - the quasi-steady "numerical" model (state = volume vector `V`), and
 - the hysteretic model (state = height+volume pair `(h, V)`).

Below we embed, as functions over `ℝ`, the constitutive relations
(`Qfric`, `Qdam`, `Qfun`, `Vfun`), the sampled lookup tables and the
`np.interp`-based inversion (`Qvals`), the network balance operator, the
two right-hand sides, and the warm-up/full-run driver wiring.  Machine
floats are modelled as exact reals; float operations that yield NaN on
negative arguments (square roots and fractional powers of negative
numbers) are additionally modelled by `Option`-valued variants where the
claim under examination is about that behaviour.
-/

/-- Scaled per-segment parameters: length, slope, width, lower and upper
dam heights, permeability (column order of the notebooks' dataframe). -/
structure Seg where
  l : ℝ
  S : ℝ
  w : ℝ
  h_l : ℝ
  h_u : ℝ
  k : ℝ

/-- Characteristic width scale `cst_w = 2.` (both notebooks). -/
noncomputable def cst_w : ℝ := 2

/-- Characteristic height scale `cst_h = 1.` (both notebooks). -/
noncomputable def cst_h : ℝ := 1

/-- Characteristic slope scale `cst_S = 0.05` (both notebooks). -/
noncomputable def cst_S : ℝ := 0.05

/-- Gravitational acceleration `cst_g = 9.8` (both notebooks). -/
noncomputable def cst_g : ℝ := 9.8

/-- Characteristic length scale `cst_l = 100.` (both notebooks). -/
noncomputable def cst_l : ℝ := 100

/-- Manning constant of the numerical (quasi-steady) notebook. -/
noncomputable def manningNum : ℝ := 0.03

/-- Manning constant of the hysteresis notebook's nondimensionalising cell. -/
noncomputable def manningHyst : ℝ := 0.035

/-- `cst_Q = cst_w*cst_h**(5/3)*cst_S**(1/2) / manning`. -/
noncomputable def cstQ (manning : ℝ) : ℝ :=
  cst_w * cst_h ^ ((5 : ℝ) / 3) * Real.sqrt cst_S / manning

/-- `cst_t = cst_l*cst_w*cst_h/cst_Q`. -/
noncomputable def cstT (manning : ℝ) : ℝ := cst_l * cst_w * cst_h / cstQ manning

/-- `cst_gamma = sqrt(2*cst_g) * cst_h**(3/2) * cst_w / cst_Q`. -/
noncomputable def cstGamma (manning : ℝ) : ℝ :=
  Real.sqrt (2 * cst_g) * cst_h ^ ((3 : ℝ) / 2) * cst_w / cstQ manning

/-- `cst_beta = cst_h / (cst_S*cst_l)`. -/
noncomputable def cstBeta : ℝ := cst_h / (cst_S * cst_l)

/-- Friction-regime discharge `Qfric(h,i) = w[i]*h**(5/3) * sqrt(S[i])`
(identical in both notebooks). -/
noncomputable def Qfric (p : Seg) (h : ℝ) : ℝ :=
  p.w * h ^ ((5 : ℝ) / 3) * Real.sqrt p.S

/-- Dam-regime discharge with the `0.6` overflow coefficient:
`Qdam` of the numerical notebook and the jit-compiled `Qdam` of the
hysteresis notebook (the version the dispatcher `Qfun` actually calls). -/
noncomputable def Qdam (γ : ℝ) (p : Seg) (h : ℝ) : ℝ :=
  γ * p.w * (p.h_l * h / Real.sqrt (h + p.h_l)
    + p.k * Real.sqrt h * min (h - p.h_l) (p.h_u - p.h_l)
    + 0.6 * 2 / 3 * max 0 (h - p.h_u) ^ ((3 : ℝ) / 2))

/-- `Qdam1` of the hysteresis notebook: the variant used in its critical
height root solve; its weir term `2/3 * max(0, h-h_u)**(3/2)` omits the
`0.6` coefficient. -/
noncomputable def Qdam1 (γ : ℝ) (p : Seg) (h : ℝ) : ℝ :=
  γ * p.w * (p.h_l * h / Real.sqrt (h + p.h_l)
    + p.k * Real.sqrt h * min (h - p.h_l) (p.h_u - p.h_l)
    + 2 / 3 * max 0 (h - p.h_u) ^ ((3 : ℝ) / 2))

/-- Residual function of the numerical notebook's root solve:
`fun(z) = Qfric(z,i) - Qdam(z,i)` (that notebook has a single `Qdam`,
with the `0.6` coefficient). -/
noncomputable def numRootResidual (γ : ℝ) (p : Seg) (h : ℝ) : ℝ :=
  Qfric p h - Qdam γ p h

/-- Residual function of the hysteresis notebook's root solve:
`fun(z) = Qfric1(z,i) - Qdam1(z,i)` (the variant without `0.6`). -/
noncomputable def hystRootResidual (γ : ℝ) (p : Seg) (h : ℝ) : ℝ :=
  Qfric p h - Qdam1 γ p h

/-- Regime dispatch `Qfun(h,i)`: friction discharge below
`max(hcrit[i], h_l[i])`, dam discharge at or above it (identical in both
notebooks; both call the `0.6`-variant `Qdam`).  `hc` is the segment's
critical height as delivered by the external root solve. -/
noncomputable def Qfun (γ : ℝ) (p : Seg) (hc h : ℝ) : ℝ :=
  if h < max hc p.h_l then Qfric p h else Qdam γ p h

/-- Storage function `Vfun(h,i)` (identical in both notebooks):
`hstr = (Qfun(h,i)/w[i]/sqrt(S[i]))**(3/5)`, then a channel+backwater
branch below `hstr + S*l/cst_beta` and a flooded-reach branch above. -/
noncomputable def Vfun (γ β lam : ℝ) (p : Seg) (hc h : ℝ) : ℝ :=
  let hstr := (Qfun γ p hc h / p.w / Real.sqrt p.S) ^ ((3 : ℝ) / 5)
  if h < hstr + p.S * p.l / β then
    p.w * p.l * hstr + lam * 0.5 * β * p.w * max 0 (h - hstr) ^ 2 / p.S
  else
    p.w * p.l * (h - p.S * p.l / β + lam / 2 * p.S * p.l / β)

/-- The shared height grid `np.linspace(0, 20, 100)`: `grid j = 20*j/99`. -/
noncomputable def grid (j : ℕ) : ℝ := 20 * j / 99

/-- Running maximum with initial value `0`, as in the table-building loop
`runmax = 0; runmax = max(runmax, f j)` executed for `j = 0, 1, ...`. -/
noncomputable def runmax (f : ℕ → ℝ) : ℕ → ℝ
  | 0 => max 0 (f 0)
  | j + 1 => max (runmax f j) (f (j + 1))

/-- Tabulated storage `Vapprox[i, j]`: the running maximum of
`Vfun(grid j, i)` sampled with increasing `j`. -/
noncomputable def Vapprox (γ β lam : ℝ) (p : Seg) (hc : ℝ) (j : ℕ) : ℝ :=
  runmax (fun m => Vfun γ β lam p hc (grid m)) j

/-- Tabulated discharge `Qapprox[i, j] = Qfun(grid j, i)` (not monotonized). -/
noncomputable def Qapprox (γ : ℝ) (p : Seg) (hc : ℝ) (j : ℕ) : ℝ :=
  Qfun γ p hc (grid j)

/-- One-dimensional linear interpolation with flat extrapolation, the
semantics of `np.interp(x, xp, fp)` for an increasing `xp`: values at or
below `xp[0]` map to `fp[0]`, values above `xp[-1]` map to `fp[-1]`, and
values in `[xp[j], xp[j+1]]` are linearly interpolated. -/
noncomputable def interp : List (ℝ × ℝ) → ℝ → ℝ
  | [], _ => 0
  | [pt], _ => pt.2
  | p0 :: p1 :: rest, x =>
    if x ≤ p0.1 then p0.2
    else if x ≤ p1.1 then p0.2 + (p1.2 - p0.2) * (x - p0.1) / (p1.1 - p0.1)
    else interp (p1 :: rest) x

/-- The per-segment interpolation table: `Vapprox[i,:]` paired with
`Qapprox[i,:]`, 100 entries. -/
noncomputable def qvTable (γ β lam : ℝ) (p : Seg) (hc : ℝ) : List (ℝ × ℝ) :=
  List.ofFn fun j : Fin 100 => (Vapprox γ β lam p hc j, Qapprox γ p hc j)

/-- Table-based inversion `Qvals`: per segment,
`np.interp(V, Vapprox[i,:], Qapprox[i,:])`. -/
noncomputable def Qvals (γ β lam : ℝ) (p : Seg) (hc V : ℝ) : ℝ :=
  interp (qvTable γ β lam p hc) V

/-- Network balance `(Adj.T.dot(Q) - Q)[j]`: inflow from upstream minus
the segment's own discharge. -/
noncomputable def netBalance {n : ℕ} (A : Fin n → Fin n → ℝ) (Q : Fin n → ℝ)
    (j : Fin n) : ℝ :=
  (∑ i, A i j * Q i) - Q j

/-- The 15-minute rain bin of a dimensional time `t` in seconds:
`minutes = t/60; i = int((minutes - minutes%15)/15)`, which equals
`⌊t/60/15⌋` for the nonnegative times used. -/
noncomputable def rainbin (t : ℝ) : ℤ := ⌊t / 60 / 15⌋

/-- Quasi-steady right-hand side `derivative(t, V)` of the numerical
notebook: `q = rainfun(t*cst_t)/cst_Q`, `Q = Qvals(V)`,
`D = Adj.T.dot(Q) - Q + q`.  `rv` is the rain-bin table `rainvals`. -/
noncomputable def derivativeQ {n : ℕ} (γ β lam cT cQ : ℝ) (segs : Fin n → Seg)
    (hcs : Fin n → ℝ) (A : Fin n → Fin n → ℝ) (rv : ℤ → Fin n → ℝ)
    (t : ℝ) (V : Fin n → ℝ) : Fin n → ℝ :=
  fun j =>
    netBalance A (fun i => Qvals γ β lam (segs i) (hcs i) (V i)) j
      + rv (rainbin (t * cT)) j / cQ

/-- The numerical notebook's warm-up right-hand side:
`derivative2(t, V) = derivative(0, V)`. -/
noncomputable def derivative2Q {n : ℕ} (γ β lam cT cQ : ℝ) (segs : Fin n → Seg)
    (hcs : Fin n → ℝ) (A : Fin n → Fin n → ℝ) (rv : ℤ → Fin n → ℝ)
    (_t : ℝ) (V : Fin n → ℝ) : Fin n → ℝ :=
  derivativeQ γ β lam cT cQ segs hcs A rv 0 V

/-- Hysteretic right-hand side core `fun(h, V, q)`:
`D1[i] = 10*(V[i] - Vfun(h[i],i))` and `D2 = Adj.T.dot(Q) - Q + q` with
`Q[i] = Qfun(h[i], i)`. -/
noncomputable def funH {n : ℕ} (γ β lam : ℝ) (segs : Fin n → Seg)
    (hcs : Fin n → ℝ) (A : Fin n → Fin n → ℝ) (h V q : Fin n → ℝ) :
    (Fin n → ℝ) × (Fin n → ℝ) :=
  (fun i => 10 * (V i - Vfun γ β lam (segs i) (hcs i) (h i)),
   fun j => netBalance A (fun i => Qfun γ (segs i) (hcs i) (h i)) j + q j)

/-- Hysteretic right-hand side `derivative(t, X)` with the state pair
`(h, V)` (the notebook's flat vector `X` split as `X[:N], X[N:]`). -/
noncomputable def derivativeH {n : ℕ} (γ β lam cT cQ : ℝ) (segs : Fin n → Seg)
    (hcs : Fin n → ℝ) (A : Fin n → Fin n → ℝ) (rv : ℤ → Fin n → ℝ)
    (t : ℝ) (X : (Fin n → ℝ) × (Fin n → ℝ)) : (Fin n → ℝ) × (Fin n → ℝ) :=
  funH γ β lam segs hcs A X.1 X.2 (fun j => rv (rainbin (t * cT)) j / cQ)

/-- The hysteresis notebook's warm-up right-hand side:
`derivative2(t, X) = derivative(0, X)`. -/
noncomputable def derivative2H {n : ℕ} (γ β lam cT cQ : ℝ) (segs : Fin n → Seg)
    (hcs : Fin n → ℝ) (A : Fin n → Fin n → ℝ) (rv : ℤ → Fin n → ℝ)
    (_t : ℝ) (X : (Fin n → ℝ) × (Fin n → ℝ)) : (Fin n → ℝ) × (Fin n → ℝ) :=
  derivativeH γ β lam cT cQ segs hcs A rv 0 X

/-- The all-zero state `initial = [0]*N`. -/
def zeroState (n : ℕ) : Fin n → ℝ := fun _ => 0

/-- Final state of the numerical notebook's warm-up phase:
`sol = solve_ivp(derivative2, (0, 60*60/cst_t), initial); sol.y[:,-1]`,
with the integrator abstracted as `solver` (returning the final column). -/
noncomputable def warmupFinalQ {n : ℕ}
    (solver : (ℝ → (Fin n → ℝ) → Fin n → ℝ) → ℝ × ℝ → (Fin n → ℝ) → Fin n → ℝ)
    (γ β lam cQ : ℝ) (segs : Fin n → Seg) (hcs : Fin n → ℝ)
    (A : Fin n → Fin n → ℝ) (rv : ℤ → Fin n → ℝ) : Fin n → ℝ :=
  solver (derivative2Q γ β lam (cstT manningNum) cQ segs hcs A rv)
    (0, 60 * 60 / cstT manningNum) (zeroState n)

/-- Initial state of the numerical notebook's full run: the warm-up's
final state, used unchanged (`initial = sol.y[:,-1]`). -/
noncomputable def fullRunInitQ {n : ℕ}
    (solver : (ℝ → (Fin n → ℝ) → Fin n → ℝ) → ℝ × ℝ → (Fin n → ℝ) → Fin n → ℝ)
    (γ β lam cQ : ℝ) (segs : Fin n → Seg) (hcs : Fin n → ℝ)
    (A : Fin n → Fin n → ℝ) (rv : ℤ → Fin n → ℝ) : Fin n → ℝ :=
  warmupFinalQ solver γ β lam cQ segs hcs A rv

/-- Final state of the hysteresis notebook's warm-up phase (state pairs). -/
noncomputable def warmupFinalH {n : ℕ}
    (solver : (ℝ → (Fin n → ℝ) × (Fin n → ℝ) → (Fin n → ℝ) × (Fin n → ℝ)) →
      ℝ × ℝ → (Fin n → ℝ) × (Fin n → ℝ) → (Fin n → ℝ) × (Fin n → ℝ))
    (γ β lam cQ : ℝ) (segs : Fin n → Seg) (hcs : Fin n → ℝ)
    (A : Fin n → Fin n → ℝ) (rv : ℤ → Fin n → ℝ) :
    (Fin n → ℝ) × (Fin n → ℝ) :=
  solver (derivative2H γ β lam (cstT manningHyst) cQ segs hcs A rv)
    (0, 60 * 60 / cstT manningHyst) (zeroState n, zeroState n)

/-- Initial state of the hysteresis notebook's full run: the warm-up's
final state, used unchanged. -/
noncomputable def fullRunInitH {n : ℕ}
    (solver : (ℝ → (Fin n → ℝ) × (Fin n → ℝ) → (Fin n → ℝ) × (Fin n → ℝ)) →
      ℝ × ℝ → (Fin n → ℝ) × (Fin n → ℝ) → (Fin n → ℝ) × (Fin n → ℝ))
    (γ β lam cQ : ℝ) (segs : Fin n → Seg) (hcs : Fin n → ℝ)
    (A : Fin n → Fin n → ℝ) (rv : ℤ → Fin n → ℝ) :
    (Fin n → ℝ) × (Fin n → ℝ) :=
  warmupFinalH solver γ β lam cQ segs hcs A rv

/-- `scipy.integrate.solve_ivp` method selectors used by the notebooks. -/
inductive IvpMethod where
  | RK45 : IvpMethod
  | RK23 : IvpMethod
  | BDF : IvpMethod
  | Radau : IvpMethod
  | LSODA : IvpMethod
deriving DecidableEq

/-- Whether a scipy method is an implicit, stiffness-suitable one. -/
def IvpMethod.isImplicitStiff : IvpMethod → Bool
  | .BDF => true
  | .Radau => true
  | .LSODA => true
  | _ => false

/-- Method of the numerical notebook's full run:
`solve_ivp(derivative, (0,T), initial, t_eval=..., atol=1e-3, method='RK23')`. -/
def numFullRunMethod : IvpMethod := .RK23

/-- Method of the hysteresis notebook's full run:
`solve_ivp(derivative, (0,T), initial, t_eval=..., atol=1e-3, rtol=1e-3,
method='RK23')`. -/
def hystFullRunMethod : IvpMethod := .RK23

/-- Result object of `scipy.optimize.root`: the solution estimate `x[0]`
and the convergence flag `success`. -/
structure RootResult where
  x : ℝ
  success : Bool

/-- The critical-height construction of both notebooks:
`hcrit.append(root(fun, h_u[i]).x[0])` — the estimate is stored for every
segment, with no inspection of the result's convergence flag. -/
def hcritList {n : ℕ} (results : Fin n → RootResult) : Fin n → ℝ :=
  fun i => (results i).x

/-- Post-processed dam fill fraction of the numerical notebook:
`(x > h_l) * min(1, (x - h_l)/(h_u - h_l))` applied to the state value `x`
of a dammed segment. -/
noncomputable def fillFrac (hl hu x : ℝ) : ℝ :=
  (if hl < x then (1 : ℝ) else 0) * min 1 ((x - hl) / (hu - hl))

/-- Fractional float power, with `none` modelling the NaN (or non-real)
result that `h**e` yields for a negative base under numba/numpy. -/
noncomputable def rpowO (x y : ℝ) : Option ℝ :=
  if x < 0 then none else some (x ^ y)

/-- Float square root, with `none` modelling `np.sqrt` of a negative. -/
noncomputable def sqrtO (x : ℝ) : Option ℝ :=
  if x < 0 then none else some (Real.sqrt x)

/-- `Qfric` with the domain of its fractional power made explicit. -/
noncomputable def QfricO (p : Seg) (h : ℝ) : Option ℝ :=
  (rpowO h ((5 : ℝ) / 3)).map fun z => p.w * z * Real.sqrt p.S

/-- `Qdam` with the domains of its square roots made explicit. -/
noncomputable def QdamO (γ : ℝ) (p : Seg) (h : ℝ) : Option ℝ := do
  let s1 ← sqrtO (h + p.h_l)
  let s2 ← sqrtO h
  let s3 ← rpowO (max 0 (h - p.h_u)) ((3 : ℝ) / 2)
  some (γ * p.w * (p.h_l * h / s1
    + p.k * s2 * min (h - p.h_l) (p.h_u - p.h_l) + 0.6 * 2 / 3 * s3))

/-- The dispatcher `Qfun` over the explicit-domain discharge functions. -/
noncomputable def QfunO (γ : ℝ) (p : Seg) (hc h : ℝ) : Option ℝ :=
  if h < max hc p.h_l then QfricO p h else QdamO γ p h

/-- `Vfun` over the explicit-domain functions. -/
noncomputable def VfunO (γ β lam : ℝ) (p : Seg) (hc h : ℝ) : Option ℝ := do
  let q ← QfunO γ p hc h
  let hstr ← rpowO (q / p.w / Real.sqrt p.S) ((3 : ℝ) / 5)
  some (if h < hstr + p.S * p.l / β then
      p.w * p.l * hstr + lam * 0.5 * β * p.w * max 0 (h - hstr) ^ 2 / p.S
    else
      p.w * p.l * (h - p.S * p.l / β + lam / 2 * p.S * p.l / β))

/-- Collect a vector of optional components; `none` as soon as any
component is undefined (a NaN component makes the whole RHS vector
unusable). -/
noncomputable def vecO {n : ℕ} (f : Fin n → Option ℝ) : Option (Fin n → ℝ) :=
  if h : ∀ i, (f i).isSome = true then some (fun i => (f i).get (h i)) else none

/-- The hysteretic right-hand side core with explicit domains: `none`
exactly when some per-segment discharge or storage evaluation is fed an
argument outside the domain of `sqrt` or a fractional power. -/
noncomputable def funHO {n : ℕ} (γ β lam : ℝ) (segs : Fin n → Seg)
    (hcs : Fin n → ℝ) (A : Fin n → Fin n → ℝ) (h V q : Fin n → ℝ) :
    Option ((Fin n → ℝ) × (Fin n → ℝ)) := do
  let Q ← vecO (fun i => QfunO γ (segs i) (hcs i) (h i))
  let Ve ← vecO (fun i => VfunO γ β lam (segs i) (hcs i) (h i))
  some (fun i => 10 * (V i - Ve i),
    fun j => netBalance A Q j + q j)

/-- A concrete scaled segment within the source's parameter ranges: a
wide (`w = 100`, i.e. 200 m physical), steep (`S = 4`, i.e. 0.2 physical)
reach of scaled length 1 carrying the default inert dam
(`h_l = 100`, `h_u = 101`, `k = 0`). -/
def segC4 : Seg := ⟨1, 4, 100, 100, 101, 0⟩

/-! ### Helper lemmas -/

lemma runmax_succ (f : ℕ → ℝ) (j : ℕ) :
    runmax f (j + 1) = max (runmax f j) (f (j + 1)) := rfl

lemma runmax_monotone (f : ℕ → ℝ) : Monotone (runmax f) := by
  apply monotone_nat_of_le_succ
  intro j
  rw [runmax_succ]
  exact le_max_left _ _

lemma grid_le_grid {j j' : ℕ} (h : j ≤ j') : grid j ≤ grid j' := by
  have hc : (j : ℝ) ≤ (j' : ℝ) := Nat.cast_le.mpr h
  unfold grid
  linarith

lemma le_of_grid_le {j j' : ℕ} (h : grid j ≤ grid j') : j ≤ j' := by
  have hc : (j : ℝ) ≤ (j' : ℝ) := by unfold grid at h; linarith
  exact_mod_cast hc

lemma vapprox_monotone (γ β lam : ℝ) (p : Seg) (hc : ℝ) :
    Monotone (Vapprox γ β lam p hc) :=
  runmax_monotone _

/-! ### C2 -/

/-- C2: the claim says the hysteretic full run uses an implicit stiff
method (e.g. BDF) while the quasi-steady full run uses the explicit RK23
pair.  Evaluating the method selectors recorded from the two full-run
`solve_ivp` calls: the quasi-steady full run does pass `method='RK23'`,
but the hysteretic full run also passes `method='RK23'`, which is not an
implicit stiffness-suitable method — contradicting both the claim and the
notebook's own accompanying text. -/
theorem c2_full_run_methods :
    numFullRunMethod = IvpMethod.RK23 ∧ hystFullRunMethod = IvpMethod.RK23 ∧
      hystFullRunMethod.isImplicitStiff = false :=
  ⟨rfl, rfl, rfl⟩

/-! ### C3 -/

/-- C3: for every segment (i.e. every parameter vector) and every pair of
sampled grid heights `grid j ≤ grid j'` on the fixed 100-point grid from 0
to 20, the tabulated storage satisfies `Vapprox j ≤ Vapprox j'`: the table
is non-decreasing in `h`, because it is built as the running maximum of
the raw storage formula sampled with increasing `h`. -/
theorem c3_vtable_monotone (γ β lam : ℝ) (p : Seg) (hc : ℝ) (j j' : ℕ)
    (hgrid : grid j ≤ grid j') (hj' : j' ≤ 99) :
    Vapprox γ β lam p hc j ≤ Vapprox γ β lam p hc j' :=
  vapprox_monotone γ β lam p hc (le_of_grid_le hgrid)

/-- Witness for C3 at a concrete segment and grid indices 0 ≤ 1. -/
theorem c3_vtable_monotone_witness :
    Vapprox (cstGamma manningNum) cstBeta 10 ⟨1, 1, 1, 100, 101, 0⟩ 2 0
      ≤ Vapprox (cstGamma manningNum) cstBeta 10 ⟨1, 1, 1, 100, 101, 0⟩ 2 1 :=
  c3_vtable_monotone _ _ _ _ _ 0 1 (by unfold grid; norm_num) (by norm_num)

/-! ### C7 -/

/-- C7: the claim says a non-converged critical-height root solve makes
the construction fail loudly with the offending segment index.  Evaluating
the actual construction (`hcrit.append(root(fun, h_u[i]).x[0])`) on a
result whose convergence flag is `false`: the unconverged estimate is
stored silently — the flag is never inspected and nothing fails. -/
theorem c7_root_flag_ignored :
    hcritList (fun _ : Fin 1 => ⟨5, false⟩) 0 = 5 := rfl

/-! ### C9 -/

/-- C9: for every dammed segment with `h_l < h_u` and every state value
`x`, the post-processed fill fraction lies in `[0, 1]`, is `0` whenever
`x ≤ h_l`, and otherwise equals `min 1 ((x - h_l)/(h_u - h_l))`. -/
theorem c9_fill_frac_range (hl hu x : ℝ) (hlt : hl < hu) :
    0 ≤ fillFrac hl hu x ∧ fillFrac hl hu x ≤ 1 ∧
      (x ≤ hl → fillFrac hl hu x = 0) ∧
      (hl < x → fillFrac hl hu x = min 1 ((x - hl) / (hu - hl))) := by
  unfold fillFrac
  by_cases hx : hl < x
  · rw [if_pos hx, one_mul]
    have hnum : (0 : ℝ) ≤ x - hl := by linarith
    have hden : (0 : ℝ) < hu - hl := by linarith
    exact ⟨le_min (by norm_num) (div_nonneg hnum hden.le), min_le_left _ _,
      fun hxle => absurd hx (not_lt.mpr hxle), fun _ => rfl⟩
  · rw [if_neg hx, zero_mul]
    exact ⟨le_refl 0, by norm_num, fun _ => rfl, fun hx' => absurd hx' hx⟩

/-- Witness for C9 at the notebook's dam parameters `h_l = 0.3`,
`h_u = 2` and state value `x = 1`. -/
theorem c9_fill_frac_range_witness :
    0 ≤ fillFrac 0.3 2 1 ∧ fillFrac 0.3 2 1 ≤ 1 ∧
      ((1 : ℝ) ≤ 0.3 → fillFrac 0.3 2 1 = 0) ∧
      ((0.3 : ℝ) < 1 → fillFrac 0.3 2 1 = min 1 ((1 - 0.3) / (2 - 0.3))) :=
  c9_fill_frac_range 0.3 2 1 (by norm_num)

/-! ### C10 -/

lemma netBalance_total_sum {n : ℕ} (A : Fin n → Fin n → ℝ) (Q : Fin n → ℝ)
    (outlets : Finset (Fin n))
    (h01 : ∀ i j, A i j = 0 ∨ A i j = 1)
    (hrow : ∀ i j j', A i j ≠ 0 → A i j' ≠ 0 → j = j')
    (hout : ∀ i, i ∈ outlets ↔ ∀ j, A i j = 0) :
    (∑ j, netBalance A Q j) = -∑ i in outlets, Q i := by
  have hsum : ∀ i, (∑ j, A i j) * Q i
      = Q i - (if i ∈ outlets then Q i else 0) := by
    intro i
    by_cases hi : i ∈ outlets
    · have hz : ∀ j, A i j = 0 := (hout i).mp hi
      simp [hi, hz]
    · rw [if_neg hi]
      have hex : ∃ j, A i j ≠ 0 := by
        by_contra hcon
        push_neg at hcon
        exact hi ((hout i).mpr hcon)
      obtain ⟨j0, hj0⟩ := hex
      have hone : A i j0 = 1 := (h01 i j0).resolve_left hj0
      have hrs : (∑ j, A i j) = 1 := by
        rw [Finset.sum_eq_single j0]
        · exact hone
        · intro b _ hb
          by_contra hbne
          exact hb (hrow i b j0 hbne hj0)
        · intro habs
          exact absurd (Finset.mem_univ j0) habs
      rw [hrs, one_mul]
      ring
  unfold netBalance
  rw [Finset.sum_sub_distrib, Finset.sum_comm]
  simp_rw [← Finset.sum_mul, hsum]
  rw [Finset.sum_sub_distrib, Finset.sum_ite_mem, Finset.univ_inter]
  ring

/-- C10: for every discharge vector `Q`, the network balance
`Adj.T·Q − Q` used by both right-hand sides conserves mass up to outlets:
its components sum to minus the sum of `Q i` over outlet segments (rows of
`Adj` that are all zero), provided `Adj` is 0/1-valued with at most one
nonzero entry per row; consequently, with zero rain forcing, the
components of the quasi-steady derivative sum to minus the total outlet
discharge, so total stored volume changes only through outlets. -/
theorem c10_mass_balance {n : ℕ} (A : Fin n → Fin n → ℝ) (Q : Fin n → ℝ)
    (outlets : Finset (Fin n))
    (h01 : ∀ i j, A i j = 0 ∨ A i j = 1)
    (hrow : ∀ i j j', A i j ≠ 0 → A i j' ≠ 0 → j = j')
    (hout : ∀ i, i ∈ outlets ↔ ∀ j, A i j = 0)
    (γ β lam cT cQ : ℝ) (segs : Fin n → Seg) (hcs : Fin n → ℝ)
    (t : ℝ) (V : Fin n → ℝ) :
    (∑ j, netBalance A Q j) = -∑ i in outlets, Q i ∧
      (∑ j, derivativeQ γ β lam cT cQ segs hcs A (fun _ _ => 0) t V j)
        = -∑ i in outlets, Qvals γ β lam (segs i) (hcs i) (V i) := by
  refine ⟨netBalance_total_sum A Q outlets h01 hrow hout, ?_⟩
  unfold derivativeQ
  simp only [zero_div, add_zero]
  exact netBalance_total_sum A _ outlets h01 hrow hout

/-- Witness for C10 on the concrete two-segment network where segment 0
discharges into segment 1 and segment 1 is the outlet. -/
theorem c10_mass_balance_witness :
    (∑ j, netBalance (fun i j : Fin 2 => if i = 0 ∧ j = 1 then (1 : ℝ) else 0)
        (fun i => (i : ℝ) + 1) j)
      = -∑ i in ({1} : Finset (Fin 2)), ((i : ℝ) + 1) ∧
      (∑ j, derivativeQ 1 cstBeta 10 1 1 (fun _ => ⟨1, 1, 1, 100, 101, 0⟩)
          (fun _ => 2) (fun i j : Fin 2 => if i = 0 ∧ j = 1 then (1 : ℝ) else 0)
          (fun _ _ => 0) 0 (fun _ => 0) j)
        = -∑ i in ({1} : Finset (Fin 2)),
            Qvals 1 cstBeta 10 ⟨1, 1, 1, 100, 101, 0⟩ 2 0 := by
  have h01 : ∀ i j : Fin 2,
      (if i = 0 ∧ j = 1 then (1 : ℝ) else 0) = 0 ∨
        (if i = 0 ∧ j = 1 then (1 : ℝ) else 0) = 1 := by
    intro i j
    by_cases h : i = 0 ∧ j = 1
    · right; rw [if_pos h]
    · left; rw [if_neg h]
  have hrow : ∀ i j j' : Fin 2,
      (if i = 0 ∧ j = 1 then (1 : ℝ) else 0) ≠ 0 →
        (if i = 0 ∧ j' = 1 then (1 : ℝ) else 0) ≠ 0 → j = j' := by
    intro i j j' hj hj'
    by_cases h : i = 0 ∧ j = 1
    · by_cases h' : i = 0 ∧ j' = 1
      · rw [h.2, h'.2]
      · rw [if_neg h'] at hj'
        exact absurd rfl hj'
    · rw [if_neg h] at hj
      exact absurd rfl hj
  have hout : ∀ i : Fin 2, i ∈ ({1} : Finset (Fin 2)) ↔
      ∀ j : Fin 2, (if i = 0 ∧ j = 1 then (1 : ℝ) else 0) = 0 := by
    intro i
    fin_cases i
    · simp only [Finset.mem_singleton]
      constructor
      · intro h
        exact absurd h (by decide)
      · intro h
        have := h 1
        rw [if_pos ⟨rfl, rfl⟩] at this
        exact absurd this one_ne_zero
    · simp only [Finset.mem_singleton]
      constructor
      · intro _ j
        rw [if_neg (by simp)]
      · intro _
        rfl
  exact c10_mass_balance _ _ _ h01 hrow hout 1 cstBeta 10 1 1 _ _ 0 _

lemma interp_head (p0 : ℝ × ℝ) (l : List (ℝ × ℝ)) (x : ℝ) (hx : x ≤ p0.1) :
    interp (p0 :: l) x = p0.2 := by
  cases l with
  | nil => rfl
  | cons p1 rest => rw [interp, if_pos hx]

lemma interp_last (l : List (ℝ × ℝ)) (x : ℝ) (hne : l ≠ [])
    (hall : ∀ pt ∈ l, pt.1 < x) :
    interp l x = (l.getLast hne).2 := by
  induction l with
  | nil => exact absurd rfl hne
  | cons p0 rest ih =>
    cases rest with
    | nil => rfl
    | cons p1 rest2 =>
      have h0 : p0.1 < x := hall p0 (List.mem_cons_self _ _)
      have h1 : p1.1 < x := hall p1 (List.mem_cons_of_mem _ (List.mem_cons_self _ _))
      have hne2 : p1 :: rest2 ≠ [] := List.cons_ne_nil _ _
      rw [interp, if_neg (not_le.mpr h0), if_neg (not_le.mpr h1),
        List.getLast_cons hne2]
      exact ih hne2 fun pt hpt => hall pt (List.mem_cons_of_mem _ hpt)

/-! ### C5 -/

/-- C5: `discharge_from_volume` (`np.interp` against the tables) clamps
out-of-range inputs: a volume below `Vapprox[i,0]` yields `Qapprox[i,0]`
and a volume above `Vapprox[i,99]` yields `Qapprox[i,99]` — flat
extrapolation at both table edges, never linear extrapolation. -/
theorem c5_flat_extrapolation (γ β lam : ℝ) (p : Seg) (hc V : ℝ) :
    (V < Vapprox γ β lam p hc 0 → Qvals γ β lam p hc V = Qapprox γ p hc 0) ∧
      (Vapprox γ β lam p hc 99 < V → Qvals γ β lam p hc V = Qapprox γ p hc 99) := by
  constructor
  · intro hV
    unfold Qvals qvTable
    rw [List.ofFn_succ]
    exact interp_head _ _ _ (le_of_lt hV)
  · intro hV
    have hne : qvTable γ β lam p hc ≠ [] := by
      unfold qvTable
      rw [ne_eq, List.ofFn_eq_nil_iff]
      norm_num
    have hall : ∀ pt ∈ qvTable γ β lam p hc, pt.1 < V := by
      intro pt hpt
      unfold qvTable at hpt
      rw [List.mem_ofFn] at hpt
      obtain ⟨i, hi⟩ := hpt
      have hle : Vapprox γ β lam p hc i ≤ Vapprox γ β lam p hc 99 :=
        vapprox_monotone γ β lam p hc (Nat.le_of_lt_succ i.isLt)
      rw [← hi]
      exact lt_of_le_of_lt hle hV
    rw [Qvals, interp_last _ _ hne hall]
    unfold qvTable
    rw [List.getLast_ofFn]

lemma Vfun_of_w_eq_zero (γ β lam : ℝ) (p : Seg) (hc h : ℝ) (hw : p.w = 0) :
    Vfun γ β lam p hc h = 0 := by
  simp only [Vfun]
  split
  · rw [hw]; ring
  · rw [hw]; ring

lemma runmax_of_all_zero (f : ℕ → ℝ) (hf : ∀ m, f m = 0) (j : ℕ) :
    runmax f j = 0 := by
  induction j with
  | zero => rw [runmax, hf, max_self]
  | succ m ih => rw [runmax_succ, ih, hf, max_self]

lemma vapprox_of_w_eq_zero (γ β lam : ℝ) (p : Seg) (hc : ℝ) (hw : p.w = 0)
    (j : ℕ) : Vapprox γ β lam p hc j = 0 :=
  runmax_of_all_zero _ (fun m => Vfun_of_w_eq_zero γ β lam p hc (grid m) hw) j

lemma vapprox_zero_nonneg (γ β lam : ℝ) (p : Seg) (hc : ℝ) :
    0 ≤ Vapprox γ β lam p hc 0 :=
  le_max_left _ _

/-- Witness for C5: at the degenerate-width segment the table is constant
zero, so `-1` is clamped to the left table edge and `1` to the right. -/
theorem c5_flat_extrapolation_witness :
    Qvals (cstGamma manningNum) cstBeta 10 ⟨1, 1, 0, 100, 101, 0⟩ 0 (-1)
        = Qapprox (cstGamma manningNum) ⟨1, 1, 0, 100, 101, 0⟩ 0 0 ∧
      Qvals (cstGamma manningNum) cstBeta 10 ⟨1, 1, 0, 100, 101, 0⟩ 0 1
        = Qapprox (cstGamma manningNum) ⟨1, 1, 0, 100, 101, 0⟩ 0 99 := by
  constructor
  · refine (c5_flat_extrapolation (cstGamma manningNum) cstBeta 10
      ⟨1, 1, 0, 100, 101, 0⟩ 0 (-1)).1 ?_
    exact lt_of_lt_of_le (by norm_num)
      (vapprox_zero_nonneg (cstGamma manningNum) cstBeta 10 ⟨1, 1, 0, 100, 101, 0⟩ 0)
  · refine (c5_flat_extrapolation (cstGamma manningNum) cstBeta 10
      ⟨1, 1, 0, 100, 101, 0⟩ 0 1).2 ?_
    rw [vapprox_of_w_eq_zero (cstGamma manningNum) cstBeta 10
      ⟨1, 1, 0, 100, 101, 0⟩ 0 rfl 99]
    norm_num

lemma Qdam_eq_Qdam1_of_le (γ : ℝ) (p : Seg) (h : ℝ) (hle : h ≤ p.h_u) :
    Qdam γ p h = Qdam1 γ p h := by
  unfold Qdam Qdam1
  rw [max_eq_left (by linarith : h - p.h_u ≤ 0),
    Real.zero_rpow (by norm_num : ((3 : ℝ) / 2) ≠ 0)]
  ring

lemma Qfric_of_w_eq_zero (p : Seg) (h : ℝ) (hw : p.w = 0) : Qfric p h = 0 := by
  simp only [Qfric]
  rw [hw]
  ring

lemma Qdam_of_w_eq_zero (γ : ℝ) (p : Seg) (h : ℝ) (hw : p.w = 0) :
    Qdam γ p h = 0 := by
  simp only [Qdam]
  rw [hw]
  ring

lemma Qdam1_of_w_eq_zero (γ : ℝ) (p : Seg) (h : ℝ) (hw : p.w = 0) :
    Qdam1 γ p h = 0 := by
  simp only [Qdam1]
  rw [hw]
  ring

/-! ### C1 -/

/-- C1 (amended): in the quasi-steady notebook the root solve and the
dispatcher use the same `Qdam`, so a converged root makes the two
dispatched regime values agree within the solver tolerance; in the
hysteresis notebook the root solve uses `Qdam1` (without the `0.6` weir
coefficient) while the dispatcher uses `Qdam` (with it), so the same
conclusion holds only when the critical height does not exceed `h_u`
(where the weir term vanishes and the two agree). -/
theorem c1_continuity_amended (γ : ℝ) (p : Seg) (hc tol : ℝ) :
    (|numRootResidual γ p hc| < tol → |Qfric p hc - Qdam γ p hc| < tol) ∧
      (hc ≤ p.h_u → |hystRootResidual γ p hc| < tol →
        |Qfric p hc - Qdam γ p hc| < tol) := by
  constructor
  · exact fun h => h
  · intro hle hres
    unfold hystRootResidual at hres
    rw [Qdam_eq_Qdam1_of_le γ p hc hle]
    exact hres

/-- Witness for C1 (amended) at a degenerate-width segment, where both
residuals vanish exactly. -/
theorem c1_continuity_amended_witness :
    |Qfric ⟨1, 1, 0, 100, 101, 0⟩ 0 - Qdam (cstGamma manningNum) ⟨1, 1, 0, 100, 101, 0⟩ 0| < 1 ∧
      |Qfric ⟨1, 1, 0, 100, 101, 0⟩ 0 - Qdam (cstGamma manningHyst) ⟨1, 1, 0, 100, 101, 0⟩ 0| < 1 := by
  constructor
  · refine (c1_continuity_amended (cstGamma manningNum) ⟨1, 1, 0, 100, 101, 0⟩ 0 1).1 ?_
    unfold numRootResidual
    rw [Qfric_of_w_eq_zero _ _ rfl, Qdam_of_w_eq_zero _ _ _ rfl]
    norm_num
  · refine (c1_continuity_amended (cstGamma manningHyst) ⟨1, 1, 0, 100, 101, 0⟩ 0 1).2
      (by norm_num) ?_
    unfold hystRootResidual
    rw [Qfric_of_w_eq_zero _ _ rfl, Qdam1_of_w_eq_zero _ _ _ rfl]
    norm_num

/-- C1 counterexample: a segment with `w = 1`, `S = 1`, `h_l = 1`,
`h_u = 4`, `k = 0` and overflow coefficient `γ = 4` has `h = 8` as an
exact root of the hysteresis notebook's residual `Qfric - Qdam1` (so the
root solve converged, with residual 0, below any tolerance), yet the two
regime values the dispatcher uses there differ by `128/15 > 8` — far
beyond any root-solver tolerance, refuting the claim for the hysteretic
variant. -/
theorem c1_continuity_counterexample :
    hystRootResidual 4 ⟨1, 1, 1, 1, 4, 0⟩ 8 = 0 ∧
      8 < |Qfric ⟨1, 1, 1, 1, 4, 0⟩ 8 - Qdam 4 ⟨1, 1, 1, 1, 4, 0⟩ 8| := by
  have h9 : Real.sqrt ((8 : ℝ) + 1) = 3 := by
    rw [show (8 : ℝ) + 1 = 3 ^ 2 by norm_num,
      Real.sqrt_sq (by norm_num : (0 : ℝ) ≤ 3)]
  have h58 : (8 : ℝ) ^ ((5 : ℝ) / 3) = 32 := by
    rw [show (8 : ℝ) = 2 ^ (3 : ℕ) by norm_num, ← Real.rpow_natCast 2 3,
      ← Real.rpow_mul (by norm_num : (0 : ℝ) ≤ 2),
      show ((3 : ℕ) : ℝ) * ((5 : ℝ) / 3) = ((5 : ℕ) : ℝ) by push_cast; norm_num,
      Real.rpow_natCast]
    norm_num
  have h32 : ((4 : ℝ)) ^ ((3 : ℝ) / 2) = 8 := by
    rw [show (4 : ℝ) = 2 ^ (2 : ℕ) by norm_num, ← Real.rpow_natCast 2 2,
      ← Real.rpow_mul (by norm_num : (0 : ℝ) ≤ 2),
      show ((2 : ℕ) : ℝ) * ((3 : ℝ) / 2) = ((3 : ℕ) : ℝ) by push_cast; norm_num,
      Real.rpow_natCast]
    norm_num
  have hmax : max (0 : ℝ) ((8 : ℝ) - 4) = 4 := by
    rw [max_def]
    norm_num
  have hfric : Qfric ⟨1, 1, 1, 1, 4, 0⟩ 8 = 32 := by
    simp only [Qfric]
    rw [h58, Real.sqrt_one]
    norm_num
  have hdam1 : Qdam1 4 ⟨1, 1, 1, 1, 4, 0⟩ 8 = 32 := by
    simp only [Qdam1]
    rw [h9, hmax, h32]
    norm_num
  have hdam : Qdam 4 ⟨1, 1, 1, 1, 4, 0⟩ 8 = 352 / 15 := by
    simp only [Qdam]
    rw [h9, hmax, h32]
    norm_num
  constructor
  · unfold hystRootResidual
    rw [hfric, hdam1]
    ring
  · rw [hfric, hdam, abs_of_pos (by norm_num)]
    norm_num

lemma rainbin_zero_mul (c : ℝ) : rainbin (0 * c) = 0 := by
  unfold rainbin
  rw [zero_mul, zero_div, zero_div, Int.floor_zero]

/-! ### C6 -/

/-- C6: in both model variants the warm-up always integrates from the
all-zero state over `(0, 60*60/cst_t)` (one hour converted by `cst_t`),
its right-hand side uses only the rain value of bin 0 (the forcing at
`t = 0`, held constant: the warm-up derivative is independent of `t` and
of every other rain bin), and the warm-up's final state is used unchanged
as the initial state of the full run. -/
theorem c6_warmup_protocol {n : ℕ} (γ β lam cQ : ℝ) (segs : Fin n → Seg)
    (hcs : Fin n → ℝ) (A : Fin n → Fin n → ℝ)
    (rv rv' rvH rvH' : ℤ → Fin n → ℝ) (t t' tH tH' : ℝ)
    (V : Fin n → ℝ) (X : (Fin n → ℝ) × (Fin n → ℝ))
    (solverQ : (ℝ → (Fin n → ℝ) → Fin n → ℝ) → ℝ × ℝ → (Fin n → ℝ) → Fin n → ℝ)
    (solverH : (ℝ → (Fin n → ℝ) × (Fin n → ℝ) → (Fin n → ℝ) × (Fin n → ℝ)) →
      ℝ × ℝ → (Fin n → ℝ) × (Fin n → ℝ) → (Fin n → ℝ) × (Fin n → ℝ))
    (hrv : rv 0 = rv' 0) (hrvH : rvH 0 = rvH' 0) :
    derivative2Q γ β lam (cstT manningNum) cQ segs hcs A rv t V
        = derivative2Q γ β lam (cstT manningNum) cQ segs hcs A rv' t' V ∧
      derivative2H γ β lam (cstT manningHyst) cQ segs hcs A rvH tH X
        = derivative2H γ β lam (cstT manningHyst) cQ segs hcs A rvH' tH' X ∧
      fullRunInitQ solverQ γ β lam cQ segs hcs A rv
        = solverQ (derivative2Q γ β lam (cstT manningNum) cQ segs hcs A rv)
            (0, 60 * 60 / cstT manningNum) (zeroState n) ∧
      fullRunInitH solverH γ β lam cQ segs hcs A rvH
        = solverH (derivative2H γ β lam (cstT manningHyst) cQ segs hcs A rvH)
            (0, 60 * 60 / cstT manningHyst) (zeroState n, zeroState n) := by
    refine ⟨?_, ?_, rfl, rfl⟩
    · unfold derivative2Q derivativeQ
      rw [rainbin_zero_mul, hrv]
    · unfold derivative2H derivativeH
      rw [rainbin_zero_mul, hrvH]

/-- Witness for C6 at a concrete one-segment network with two rain tables
agreeing on bin 0. -/
theorem c6_warmup_protocol_witness :
    derivative2Q 1 cstBeta 10 (cstT manningNum) 1 (fun _ : Fin 1 => ⟨1, 1, 1, 100, 101, 0⟩)
        (fun _ => 2) (fun _ _ => 0) (fun _ _ => 3) 5 (fun _ => 0)
        = derivative2Q 1 cstBeta 10 (cstT manningNum) 1 (fun _ : Fin 1 => ⟨1, 1, 1, 100, 101, 0⟩)
          (fun _ => 2) (fun _ _ => 0) (fun b j => if b = 0 then 3 else 7) 9 (fun _ => 0) ∧
      derivative2H 1 cstBeta 10 (cstT manningHyst) 1 (fun _ : Fin 1 => ⟨1, 1, 1, 100, 101, 0⟩)
          (fun _ => 2) (fun _ _ => 0) (fun _ _ => 3) 5 (fun _ => 0, fun _ => 0)
        = derivative2H 1 cstBeta 10 (cstT manningHyst) 1 (fun _ : Fin 1 => ⟨1, 1, 1, 100, 101, 0⟩)
          (fun _ => 2) (fun _ _ => 0) (fun b j => if b = 0 then 3 else 7) 9 (fun _ => 0, fun _ => 0) ∧
      fullRunInitQ (fun _ _ x0 => x0) 1 cstBeta 10 1 (fun _ : Fin 1 => ⟨1, 1, 1, 100, 101, 0⟩)
          (fun _ => 2) (fun _ _ => 0) (fun _ _ => 3)
        = (fun _ _ x0 => x0) (derivative2Q 1 cstBeta 10 (cstT manningNum) 1
            (fun _ : Fin 1 => ⟨1, 1, 1, 100, 101, 0⟩) (fun _ => 2) (fun _ _ => 0) (fun _ _ => 3))
            (0, 60 * 60 / cstT manningNum) (zeroState 1) ∧
      fullRunInitH (fun _ _ x0 => x0) 1 cstBeta 10 1 (fun _ : Fin 1 => ⟨1, 1, 1, 100, 101, 0⟩)
          (fun _ => 2) (fun _ _ => 0) (fun _ _ => 3)
        = (fun _ _ x0 => x0) (derivative2H 1 cstBeta 10 (cstT manningHyst) 1
            (fun _ : Fin 1 => ⟨1, 1, 1, 100, 101, 0⟩) (fun _ => 2) (fun _ _ => 0) (fun _ _ => 3))
            (0, 60 * 60 / cstT manningHyst) (zeroState 1, zeroState 1) :=
  c6_warmup_protocol 1 cstBeta 10 1 _ _ _ _ _ _ _ 5 9 5 9 _ _ _ _
    (by norm_num) (by norm_num)

lemma vecO_eq_none {n : ℕ} (f : Fin n → Option ℝ) (i : Fin n) (hi : f i = none) :
    vecO f = none := by
  unfold vecO
  rw [dif_neg]
  intro hall
  have h0 := hall i
  rw [hi] at h0
  simp at h0

/-! ### C8 -/

/-- C8: the claim says each right-hand side either rejects a state with a
negative component or has explicitly defined behaviour there.  Evaluating
the hysteretic right-hand side (with float partiality made explicit) on
the state with height `-1`: the dispatcher sends `-1` into
`Qfric(-1) = w*(-1)**(5/3)*sqrt(S)`, a fractional power of a negative
base, so the evaluation is undefined (NaN) and nothing rejects it. -/
theorem c8_negative_height_undefined :
    funHO (cstGamma manningHyst) cstBeta 10 (fun _ : Fin 1 => ⟨1, 1, 1, 100, 101, 0⟩)
      (fun _ => 1) (fun _ _ => 0) (fun _ => -1) (fun _ => 0) (fun _ => 0) = none := by
  have hq : QfunO (cstGamma manningHyst) ⟨1, 1, 1, 100, 101, 0⟩ 1 (-1) = none := by
    unfold QfunO
    rw [if_pos (lt_max_iff.mpr (Or.inl (by norm_num)))]
    unfold QfricO rpowO
    rw [if_pos (by norm_num)]
    rfl
  unfold funHO
  rw [vecO_eq_none _ 0 hq]
  rfl

lemma interp_cons_cons (p0 p1 : ℝ × ℝ) (l : List (ℝ × ℝ)) (x : ℝ)
    (h0 : ¬ x ≤ p0.1) (h1 : x ≤ p1.1) :
    interp (p0 :: p1 :: l) x
      = p0.2 + (p1.2 - p0.2) * (x - p0.1) / (p1.1 - p0.1) := by
  rw [interp, if_neg h0, if_pos h1]

lemma interp_at_index (l : List (ℝ × ℝ)) (i : ℕ) (hi : i < l.length)
    (hprev : ∀ m (hm : m < i),
      (l.get ⟨m, lt_trans hm hi⟩).1 < (l.get ⟨i, hi⟩).1) :
    interp l ((l.get ⟨i, hi⟩).1) = (l.get ⟨i, hi⟩).2 := by
  induction l generalizing i with
  | nil => simp at hi
  | cons p0 rest ih =>
    cases i with
    | zero => exact interp_head p0 rest _ (le_refl _)
    | succ m =>
      cases rest with
      | nil =>
        simp only [List.length_singleton] at hi
        omega
      | cons p1 rest2 =>
        have hm0 : p0.1 < ((p0 :: p1 :: rest2).get ⟨m + 1, hi⟩).1 :=
          hprev 0 (Nat.succ_pos m)
        cases m with
        | zero =>
          rw [show ((p0 :: p1 :: rest2).get ⟨0 + 1, hi⟩) = p1 from rfl] at hm0 ⊢
          rw [interp, if_neg (not_le.mpr hm0), if_pos (le_refl p1.1)]
          have hne : p1.1 - p0.1 ≠ 0 := sub_ne_zero.mpr (ne_of_gt hm0)
          field_simp
        | succ m2 =>
          have hm1 : p1.1 < ((p0 :: p1 :: rest2).get ⟨m2 + 1 + 1, hi⟩).1 :=
            hprev 1 (by omega)
          rw [interp, if_neg (not_le.mpr hm0), if_neg (not_le.mpr hm1)]
          exact ih (m2 + 1) (Nat.lt_of_succ_lt_succ hi)
            (fun m' hm' => hprev (m' + 1) (by omega))

lemma qvTable_get (γ β lam : ℝ) (p : Seg) (hc : ℝ) (m : ℕ)
    (hm : m < (qvTable γ β lam p hc).length) :
    (qvTable γ β lam p hc).get ⟨m, hm⟩
      = (Vapprox γ β lam p hc m, Qapprox γ p hc m) := by
  unfold qvTable
  rw [List.get_ofFn]
  rfl

/-! ### C4 -/

/-- C4 (amended): the round-trip law holds exactly at sampled grid nodes
rather than (with a grid-spacing error bound) at arbitrary interior
heights: at a node `grid j` whose raw storage value equals its tabulated
running maximum and strictly exceeds every earlier table entry, composing
`Vfun` with the table-based `Qvals` recovers the dispatched discharge
`Qapprox j = Qfun (grid j)` exactly.  Between nodes the interpolation
error is governed by the discharge variation across the cell and can
exceed the grid spacing. -/
theorem c4_roundtrip_amended (γ β lam : ℝ) (p : Seg) (hc : ℝ) (j : ℕ)
    (hj : j < 100)
    (hnode : Vfun γ β lam p hc (grid j) = Vapprox γ β lam p hc j)
    (hprev : ∀ m, m < j → Vapprox γ β lam p hc m < Vapprox γ β lam p hc j) :
    Qvals γ β lam p hc (Vfun γ β lam p hc (grid j)) = Qapprox γ p hc j := by
  have hlen : (qvTable γ β lam p hc).length = 100 := by
    unfold qvTable
    rw [List.length_ofFn]
  have hj' : j < (qvTable γ β lam p hc).length := by rw [hlen]; exact hj
  have hkey := interp_at_index (qvTable γ β lam p hc) j hj' (by
    intro m hm
    rw [qvTable_get, qvTable_get]
    exact hprev m hm)
  rw [qvTable_get γ β lam p hc j hj'] at hkey
  rw [hnode, Qvals]
  exact hkey

/-- Witness for C4 (amended) at node 0 of the degenerate-width segment. -/
theorem c4_roundtrip_amended_witness :
    Qvals (cstGamma manningNum) cstBeta 10 ⟨1, 1, 0, 100, 101, 0⟩ 0
        (Vfun (cstGamma manningNum) cstBeta 10 ⟨1, 1, 0, 100, 101, 0⟩ 0 (grid 0))
      = Qapprox (cstGamma manningNum) ⟨1, 1, 0, 100, 101, 0⟩ 0 0 :=
  c4_roundtrip_amended (cstGamma manningNum) cstBeta 10 ⟨1, 1, 0, 100, 101, 0⟩ 0 0
    (by norm_num)
    (by rw [Vfun_of_w_eq_zero _ _ _ _ _ _ rfl, vapprox_of_w_eq_zero _ _ _ _ _ rfl 0])
    (fun m hm => absurd hm (Nat.not_lt_zero m))

lemma sqrt_four : Real.sqrt 4 = 2 := by
  rw [show (4 : ℝ) = 2 ^ 2 by norm_num, Real.sqrt_sq (by norm_num : (0 : ℝ) ≤ 2)]

lemma cstBeta_eq : cstBeta = 1 / 5 := by
  unfold cstBeta cst_h cst_S cst_l
  norm_num

lemma grid_zero : grid 0 = 0 := by
  unfold grid
  norm_num

lemma grid_one : grid 1 = 20 / 99 := by
  unfold grid
  norm_num

lemma runmax_zero_def (f : ℕ → ℝ) : runmax f 0 = max 0 (f 0) := rfl

lemma qfun_segC4 (γ h : ℝ) (h100 : h < 100) :
    Qfun γ segC4 0 h = 200 * h ^ ((5 : ℝ) / 3) := by
  have hcond : h < max (0 : ℝ) segC4.h_l := by
    rw [show segC4.h_l = (100 : ℝ) from rfl,
      max_eq_right (by norm_num : (0 : ℝ) ≤ 100)]
    exact h100
  unfold Qfun
  rw [if_pos hcond]
  unfold Qfric
  rw [show segC4.w = (100 : ℝ) from rfl, show segC4.S = (4 : ℝ) from rfl, sqrt_four]
  ring

lemma vfun_segC4 (γ h : ℝ) (h0 : 0 ≤ h) (h100 : h < 100) :
    Vfun γ cstBeta 10 segC4 0 h = 100 * h := by
  have hstr_eq : (Qfun γ segC4 0 h / segC4.w / Real.sqrt segC4.S) ^ ((3 : ℝ) / 5)
      = h := by
    rw [qfun_segC4 γ h h100, show segC4.w = (100 : ℝ) from rfl,
      show segC4.S = (4 : ℝ) from rfl, sqrt_four,
      show (200 * h ^ ((5 : ℝ) / 3) / 100 / 2) = h ^ ((5 : ℝ) / 3) by ring,
      ← Real.rpow_mul h0,
      show ((5 : ℝ) / 3 * ((3 : ℝ) / 5)) = 1 by norm_num, Real.rpow_one]
  have hcond : h < h + segC4.S * segC4.l / cstBeta := by
    rw [show segC4.S = (4 : ℝ) from rfl, show segC4.l = (1 : ℝ) from rfl, cstBeta_eq]
    norm_num
  simp only [Vfun]
  rw [hstr_eq, if_pos hcond, sub_self, max_self,
    show segC4.w = (100 : ℝ) from rfl, show segC4.l = (1 : ℝ) from rfl,
    show segC4.S = (4 : ℝ) from rfl, cstBeta_eq]
  norm_num

lemma vapprox_segC4_zero (γ : ℝ) : Vapprox γ cstBeta 10 segC4 0 0 = 0 := by
  unfold Vapprox
  rw [runmax_zero_def]
  show max 0 (Vfun γ cstBeta 10 segC4 0 (grid 0)) = 0
  rw [grid_zero, vfun_segC4 γ 0 le_rfl (by norm_num)]
  norm_num

lemma vapprox_segC4_one (γ : ℝ) : Vapprox γ cstBeta 10 segC4 0 1 = 2000 / 99 := by
  have h0 := vapprox_segC4_zero γ
  unfold Vapprox at h0 ⊢
  rw [runmax_succ _ 0, h0]
  show max 0 (Vfun γ cstBeta 10 segC4 0 (grid 1)) = 2000 / 99
  rw [grid_one, vfun_segC4 γ (20 / 99) (by norm_num) (by norm_num),
    max_eq_right (by norm_num : (0 : ℝ) ≤ 100 * (20 / 99))]
  norm_num

lemma qapprox_segC4_zero (γ : ℝ) : Qapprox γ segC4 0 0 = 0 := by
  unfold Qapprox
  rw [grid_zero, qfun_segC4 γ 0 (by norm_num),
    Real.zero_rpow (by norm_num : ((5 : ℝ) / 3) ≠ 0)]
  ring

lemma qapprox_segC4_one (γ : ℝ) :
    Qapprox γ segC4 0 1 = 200 * ((20 : ℝ) / 99) ^ ((5 : ℝ) / 3) := by
  unfold Qapprox
  rw [grid_one, qfun_segC4 γ (20 / 99) (by norm_num)]

lemma qvTable_segC4_cons (γ : ℝ) :
    qvTable γ cstBeta 10 segC4 0
      = (Vapprox γ cstBeta 10 segC4 0 0, Qapprox γ segC4 0 0)
        :: (Vapprox γ cstBeta 10 segC4 0 1, Qapprox γ segC4 0 1)
        :: List.ofFn (fun i : Fin 98 =>
            (Vapprox γ cstBeta 10 segC4 0 ((i : ℕ) + 2),
              Qapprox γ segC4 0 ((i : ℕ) + 2))) := by
  unfold qvTable
  rw [List.ofFn_succ, List.ofFn_succ]
  rfl

lemma qvals_segC4_mid (γ : ℝ) :
    Qvals γ cstBeta 10 segC4 0 (1000 / 99)
      = 100 * ((20 : ℝ) / 99) ^ ((5 : ℝ) / 3) := by
  have hVa0 := vapprox_segC4_zero γ
  have hVa1 := vapprox_segC4_one γ
  have hQa0 := qapprox_segC4_zero γ
  have hQa1 := qapprox_segC4_one γ
  have h0' : ¬ ((1000 : ℝ) / 99
      ≤ (Vapprox γ cstBeta 10 segC4 0 0, Qapprox γ segC4 0 0).1) := by
    dsimp only
    rw [hVa0]
    norm_num
  have h1' : (1000 : ℝ) / 99
      ≤ (Vapprox γ cstBeta 10 segC4 0 1, Qapprox γ segC4 0 1).1 := by
    dsimp only
    rw [hVa1]
    norm_num
  rw [Qvals, qvTable_segC4_cons γ, interp_cons_cons _ _ _ _ h0' h1']
  dsimp only
  rw [hVa0, hVa1, hQa0, hQa1]
  rw [show (200 * ((20 : ℝ) / 99) ^ ((5 : ℝ) / 3) - 0) * (1000 / 99 - 0) / (2000 / 99 - 0)
      = 200 * ((20 : ℝ) / 99) ^ ((5 : ℝ) / 3) * (1000 / 99) / (2000 / 99) by ring]
  rw [show (2000 : ℝ) / 99 ≠ 0 → 200 * ((20 : ℝ) / 99) ^ ((5 : ℝ) / 3) * (1000 / 99) / (2000 / 99)
      = 100 * ((20 : ℝ) / 99) ^ ((5 : ℝ) / 3) from fun hne => by field_simp; ring]
  · ring
  · norm_num

lemma two_rpow_ge_three : (3 : ℝ) ≤ (2 : ℝ) ^ ((5 : ℝ) / 3) := by
  have hcube : ((2 : ℝ) ^ ((5 : ℝ) / 3)) ^ (3 : ℕ) = 32 := by
    rw [← Real.rpow_natCast ((2 : ℝ) ^ ((5 : ℝ) / 3)) 3,
      ← Real.rpow_mul (by norm_num : (0 : ℝ) ≤ 2),
      show ((5 : ℝ) / 3) * ((3 : ℕ) : ℝ) = ((5 : ℕ) : ℝ) by push_cast; norm_num,
      Real.rpow_natCast]
    norm_num
  by_contra hlt
  push_neg at hlt
  have hnn : (0 : ℝ) ≤ (2 : ℝ) ^ ((5 : ℝ) / 3) :=
    Real.rpow_nonneg (by norm_num) _
  have hp := pow_lt_pow_left hlt hnn (by norm_num : (3 : ℕ) ≠ 0)
  rw [hcube] at hp
  norm_num at hp

lemma base_rpow_ge : (1 : ℝ) / 50 ≤ ((10 : ℝ) / 99) ^ ((5 : ℝ) / 3) := by
  have hb : (0 : ℝ) ≤ (10 : ℝ) / 99 := by norm_num
  have hcube : (((10 : ℝ) / 99) ^ ((5 : ℝ) / 3)) ^ (3 : ℕ)
      = ((10 : ℝ) / 99) ^ (5 : ℕ) := by
    rw [← Real.rpow_natCast (((10 : ℝ) / 99) ^ ((5 : ℝ) / 3)) 3,
      ← Real.rpow_mul hb,
      show ((5 : ℝ) / 3) * ((3 : ℕ) : ℝ) = ((5 : ℕ) : ℝ) by push_cast; norm_num,
      Real.rpow_natCast]
  by_contra hlt
  push_neg at hlt
  have hnn : (0 : ℝ) ≤ ((10 : ℝ) / 99) ^ ((5 : ℝ) / 3) := Real.rpow_nonneg hb _
  have hp := pow_lt_pow_left hlt hnn (by norm_num : (3 : ℕ) ≠ 0)
  rw [hcube] at hp
  norm_num at hp

lemma c4_gap (γ : ℝ) :
    grid 1 - grid 0 < |Qvals γ cstBeta 10 segC4 0
        (Vfun γ cstBeta 10 segC4 0 (10 / 99))
      - Qfun γ segC4 0 (10 / 99)| := by
  have hx : Vfun γ cstBeta 10 segC4 0 (10 / 99) = 1000 / 99 := by
    rw [vfun_segC4 γ (10 / 99) (by norm_num) (by norm_num)]
    norm_num
  have hqh : Qfun γ segC4 0 (10 / 99) = 200 * ((10 : ℝ) / 99) ^ ((5 : ℝ) / 3) :=
    qfun_segC4 γ (10 / 99) (by norm_num)
  have hb_eq : ((20 : ℝ) / 99) ^ ((5 : ℝ) / 3)
      = (2 : ℝ) ^ ((5 : ℝ) / 3) * ((10 : ℝ) / 99) ^ ((5 : ℝ) / 3) := by
    rw [← Real.mul_rpow (by norm_num : (0 : ℝ) ≤ 2) (by norm_num : (0 : ℝ) ≤ (10 : ℝ) / 99)]
    norm_num
  rw [hx, qvals_segC4_mid γ, hqh, hb_eq]
  have hc3 := two_rpow_ge_three
  have ha := base_rpow_ge
  have expand : 100 * ((2 : ℝ) ^ ((5 : ℝ) / 3) * ((10 : ℝ) / 99) ^ ((5 : ℝ) / 3))
      - 200 * ((10 : ℝ) / 99) ^ ((5 : ℝ) / 3)
      = (100 * (2 : ℝ) ^ ((5 : ℝ) / 3) - 200) * ((10 : ℝ) / 99) ^ ((5 : ℝ) / 3) := by
    ring
  have hkey : (2 : ℝ) ≤ 100 * ((2 : ℝ) ^ ((5 : ℝ) / 3) * ((10 : ℝ) / 99) ^ ((5 : ℝ) / 3))
      - 200 * ((10 : ℝ) / 99) ^ ((5 : ℝ) / 3) := by
    rw [expand]
    have h1 : (100 : ℝ) ≤ 100 * (2 : ℝ) ^ ((5 : ℝ) / 3) - 200 := by linarith
    calc (2 : ℝ) = 100 * (1 / 50) := by norm_num
      _ ≤ (100 * (2 : ℝ) ^ ((5 : ℝ) / 3) - 200) * ((10 : ℝ) / 99) ^ ((5 : ℝ) / 3) :=
          mul_le_mul h1 ha (by norm_num) (by linarith)
  have habs := le_abs_self (100 * ((2 : ℝ) ^ ((5 : ℝ) / 3) * ((10 : ℝ) / 99) ^ ((5 : ℝ) / 3))
      - 200 * ((10 : ℝ) / 99) ^ ((5 : ℝ) / 3))
  rw [grid_one, grid_zero]
  linarith

/-- C4 counterexample: at the segment `segC4` (within the source's
parameter ranges, dam inert) and the interior height `h = 10/99`, strictly
between the grid nodes `grid 0 = 0` and `grid 1 = 20/99`, the composition
`discharge_from_volume ∘ volume_from_height` misses the dispatched
discharge `Q(h, i)` by more than `2`, while the grid spacing is
`20/99 ≈ 0.202`: the round-trip interpolation error is not bounded by the
grid spacing. -/
theorem c4_roundtrip_counterexample :
    grid 0 < 10 / 99 ∧ (10 : ℝ) / 99 < grid 1 ∧
      grid 1 - grid 0 < |Qvals (cstGamma manningNum) cstBeta 10 segC4 0
          (Vfun (cstGamma manningNum) cstBeta 10 segC4 0 (10 / 99))
        - Qfun (cstGamma manningNum) segC4 0 (10 / 99)| :=
  ⟨by rw [grid_zero]; norm_num, by rw [grid_one]; norm_num,
    c4_gap (cstGamma manningNum)⟩
